import Mathlib

/-!
Verification of the inventory module `cleaned_inventory_system.py`.

The module keeps a mapping from item name (string) to quantity (Python int)
in a module-level dict `stock_data`, with operations `add_item`, `remove_item`,
`get_qty`, `load_data`, `save_data`, `print_data`, `check_low_items`.

Shallow embedding choices:
* The Python dict is an insertion-ordered association list `Store` with the
  dict operations (lookup, set-in-place-or-append, delete) spelled out.
* Arguments of the public operations are arbitrary Python values, modelled by
  `PyVal`, so that the `isinstance` validation of the source is expressible.
  Python's `bool` is a subtype of `int` (`isinstance(True, int)` holds), which
  the source relies on; `pyIsInt` reflects that.
* Exceptions are modelled by returning `Option PyErr × ...`: the first
  component is the raised exception (if any) and the second the state of
  `stock_data` when the function exits.  The spec taxonomy maps
  `typeError`/`valueError` raised by validation to InvalidArgument,
  `keyError` to NotFound, and the `valueError` raised by `load_data`
  to FormatError.
* The file system is abstracted by `FileState`: the file at the given path is
  absent, present but not valid JSON, or present and parsing to a JSON value
  (`Json`).  `save_data` produces the `FileState` it writes.  Quantities read
  back from JSON are Python ints; a JSON boolean is a Python `bool`, which
  passes `isinstance(v, int)` with value 0 or 1.
-/

/-- A parsed JSON value, as produced by Python's `json.load`.  Non-integral
numbers all behave alike in this module (they only ever fail the
`isinstance(v, int)` check), so they carry no payload. -/
inductive Json where
  | jnull : Json
  | jbool : Bool → Json
  | jint : Int → Json
  | jfloat : Json
  | jstr : String → Json
  | jarr : List Json → Json
  | jobj : List (String × Json) → Json

/-- A Python value that can be passed as an argument to the public
operations. `vother` stands for any value that is neither a string, an int,
a bool nor None (e.g. a list or a float); the module only ever asks
`isinstance(_, str)` / `isinstance(_, int)` of its arguments. -/
inductive PyVal where
  | vstr : String → PyVal
  | vint : Int → PyVal
  | vbool : Bool → PyVal
  | vnone : PyVal
  | vother : PyVal
deriving DecidableEq, Repr

/-- `isinstance(v, str)` for an argument value. -/
def pyIsStr : PyVal → Bool
  | .vstr _ => true
  | _ => false

/-- `isinstance(v, int)` for an argument value.  In Python, `bool` is a
subclass of `int`, so booleans pass this check. -/
def pyIsInt : PyVal → Bool
  | .vint _ => true
  | .vbool _ => true
  | _ => false

/-- The string carried by a `PyVal` (meaningful when `pyIsStr` holds). -/
def pyStr : PyVal → String
  | .vstr s => s
  | _ => ""

/-- The integer value of a `PyVal` (meaningful when `pyIsInt` holds);
`True == 1` and `False == 0` in Python. -/
def pyInt : PyVal → Int
  | .vint n => n
  | .vbool b => if b then 1 else 0
  | _ => 0

/-- Exceptions the module raises. -/
inductive PyErr where
  | typeError : PyErr
  | valueError : PyErr
  | keyError : PyErr
deriving DecidableEq, Repr

/-- The module-level dict `stock_data`: an insertion-ordered association
list from item name to quantity. -/
abbrev Store : Type := List (String × Int)

/-- `stock_data[item]` / `stock_data.get(item)`: the value at a key, if
present. -/
def lookupKey : Store → String → Option Int
  | [], _ => none
  | (k', v') :: rest, k => if k' = k then some v' else lookupKey rest k

/-- `stock_data.get(item, 0)`: the value at a key, defaulting to 0. -/
def getKey0 (st : Store) (k : String) : Int :=
  (lookupKey st k).getD 0

/-- `stock_data[item] = v`: update in place if the key is present, else
append (Python dicts preserve insertion order). -/
def setKey : Store → String → Int → Store
  | [], k, v => [(k, v)]
  | (k', v') :: rest, k, v =>
    if k' = k then (k, v) :: rest else (k', v') :: setKey rest k v

/-- `del stock_data[item]`: remove the entry with the given key. -/
def removeKey : Store → String → Store
  | [], _ => []
  | (k', v') :: rest, k =>
    if k' = k then removeKey rest k else (k', v') :: removeKey rest k

/-- `add_item(item, qty)`: validate the arguments, then
`stock_data[item] = stock_data.get(item, 0) + qty`.  The result is the
raised exception (if any) together with the state of `stock_data` when the
function exits.  (The optional `logs` list and the operational log line are
pure output side effects and carry no inventory state; they are omitted.) -/
def add_item (st : Store) (item qty : PyVal) : Option PyErr × Store :=
  if ¬ pyIsStr item ∨ pyStr item = "" then (some .typeError, st)
  else if ¬ pyIsInt qty then (some .typeError, st)
  else if pyInt qty ≤ 0 then (some .valueError, st)
  else (none, setKey st (pyStr item) (getKey0 st (pyStr item) + pyInt qty))

/-- `remove_item(item, qty)`: validate the arguments; `KeyError` if the item
is absent; delete the entry when `qty >= stock_data[item]`, else decrement
in place. -/
def remove_item (st : Store) (item qty : PyVal) : Option PyErr × Store :=
  if ¬ pyIsStr item ∨ pyStr item = "" then (some .typeError, st)
  else if ¬ pyIsInt qty then (some .typeError, st)
  else if pyInt qty ≤ 0 then (some .valueError, st)
  else
    match lookupKey st (pyStr item) with
    | none => (some .keyError, st)
    | some cur =>
      if pyInt qty ≥ cur then (none, removeKey st (pyStr item))
      else (none, setKey st (pyStr item) (cur - pyInt qty))

/-- `get_qty(item)`: validate the argument, then `stock_data.get(item, 0)`.
The middle component is the state of `stock_data` when the function exits
(the function performs no mutation), the last the returned quantity. -/
def get_qty (st : Store) (item : PyVal) : Option PyErr × Store × Option Int :=
  if ¬ pyIsStr item ∨ pyStr item = "" then (some .typeError, st, none)
  else (none, st, some (getKey0 st (pyStr item)))

/-- `check_low_items(threshold)`: validate the threshold, then
`[k for k, v in stock_data.items() if v < threshold]`. -/
def check_low_items (st : Store) (threshold : PyVal) :
    Option PyErr × Store × Option (List String) :=
  if ¬ pyIsInt threshold then (some .typeError, st, none)
  else (none, st,
    some ((st.filter (fun kv => kv.2 < pyInt threshold)).map Prod.fst))

/-- The state of the file at the path given to `load_data`/`save_data`:
absent, present but not valid JSON, or present and parsing to a JSON
value. -/
inductive FileState where
  | absent : FileState
  | invalid : FileState
  | parsed : Json → FileState

/-- `isinstance(v, int)` for a value decoded from JSON: JSON integers are
Python ints and JSON booleans are Python bools, a subclass of `int`; every
other JSON value fails the check. -/
def jsonIsInt : Json → Bool
  | .jint _ => true
  | .jbool _ => true
  | _ => false

/-- The Python integer value of a decoded JSON value (meaningful when
`jsonIsInt` holds). -/
def jsonInt : Json → Int
  | .jint n => n
  | .jbool b => if b then 1 else 0
  | _ => 0

/-- The loop of `load_data`: `for k, v in data.items(): ...` building the
`normalized` dict, raising `ValueError` at the first value that is not an
int.  (Keys of a dict produced by `json.load` are strings by construction,
so the `isinstance(k, str)` half of the source's check always passes.) -/
def normalizeLoop (acc : Store) : List (String × Json) → Except PyErr Store
  | [] => .ok acc
  | (k, v) :: rest =>
    if jsonIsInt v then normalizeLoop (setKey acc k (jsonInt v)) rest
    else .error .valueError

/-- `load_data(file)`: an absent file leaves an empty inventory; invalid
JSON, a non-object top-level value, or a non-int value raise `ValueError`
(the spec's FormatError); on success `stock_data` is replaced wholesale by
the normalized contents. -/
def load_data (st : Store) (file : FileState) : Option PyErr × Store :=
  match file with
  | .absent => (none, [])
  | .invalid => (some .valueError, st)
  | .parsed (.jobj fields) =>
    match normalizeLoop [] fields with
    | .ok normalized => (none, normalized)
    | .error e => (some e, st)
  | .parsed _ => (some .valueError, st)

/-- `save_data(file)`: serialize the full current store as a JSON object
(`json.dump(stock_data, f)`), producing the new state of the file. -/
def save_data (st : Store) : FileState :=
  .parsed (.jobj (st.map (fun kv => (kv.1, Json.jint kv.2))))

/-! ### The claimed store invariant and reachability through the public
operations -/

/-- The invariant claimed of the inventory mapping: every key is a
non-empty string and every stored quantity is strictly positive. -/
def StoreInv (st : Store) : Prop :=
  ∀ kv ∈ st, kv.1 ≠ "" ∧ 0 < kv.2

/-- Store states reachable from the initial empty inventory through the
public operations.  `save_data` reads the store and returns only a file, so
it induces no transition; `get_qty` and `check_low_items` are included with
any outcome (they pass the store through unchanged). -/
inductive Reachable : Store → Prop where
  | init : Reachable []
  | step_add {st st' : Store} {item qty : PyVal} :
      Reachable st → add_item st item qty = (none, st') → Reachable st'
  | step_remove {st st' : Store} {item qty : PyVal} :
      Reachable st → remove_item st item qty = (none, st') → Reachable st'
  | step_query {st st' : Store} {item : PyVal} {e : Option PyErr}
      {q : Option Int} :
      Reachable st → get_qty st item = (e, st', q) → Reachable st'
  | step_low {st st' : Store} {threshold : PyVal} {e : Option PyErr}
      {l : Option (List String)} :
      Reachable st → check_low_items st threshold = (e, st', l) → Reachable st'
  | step_load {st st' : Store} {f : FileState} :
      Reachable st → load_data st f = (none, st') → Reachable st'

/-- A file whose loaded mapping satisfies the store invariant: every entry
of the object has a non-empty key and a strictly positive integer value.
(Absent or rejected files are unconstrained: they never produce a successful
load of a bad mapping.) -/
def goodFile : FileState → Prop
  | .parsed (.jobj fields) =>
      ∀ kv ∈ fields, kv.1 ≠ "" ∧ ∃ n : Int, kv.2 = Json.jint n ∧ 0 < n
  | _ => True

/-- Reachability as in `Reachable`, but every successful `load_data` step
reads a file whose mapping already satisfies the invariant. -/
inductive ReachableChecked : Store → Prop where
  | init : ReachableChecked []
  | step_add {st st' : Store} {item qty : PyVal} :
      ReachableChecked st → add_item st item qty = (none, st') →
      ReachableChecked st'
  | step_remove {st st' : Store} {item qty : PyVal} :
      ReachableChecked st → remove_item st item qty = (none, st') →
      ReachableChecked st'
  | step_query {st st' : Store} {item : PyVal} {e : Option PyErr}
      {q : Option Int} :
      ReachableChecked st → get_qty st item = (e, st', q) →
      ReachableChecked st'
  | step_low {st st' : Store} {threshold : PyVal} {e : Option PyErr}
      {l : Option (List String)} :
      ReachableChecked st → check_low_items st threshold = (e, st', l) →
      ReachableChecked st'
  | step_load {st st' : Store} {f : FileState} :
      ReachableChecked st → goodFile f → load_data st f = (none, st') →
      ReachableChecked st'

/-! ### Further definitions used by the claims -/

/-- A single-item operation trace: the quantities passed to `add_item` /
`remove_item` for one fixed item. -/
inductive SOp where
  | addOp : Int → SOp
  | removeOp : Int → SOp
deriving DecidableEq, Repr

/-- Run a trace of operations on one item through the store, stopping at
the first raised exception. -/
def runOps (item : String) : Store → List SOp → Option PyErr × Store
  | st, [] => (none, st)
  | st, .addOp q :: rest =>
    match add_item st (.vstr item) (.vint q) with
    | (none, st1) => runOps item st1 rest
    | (some e, st1) => (some e, st1)
  | st, .removeOp q :: rest =>
    match remove_item st (.vstr item) (.vint q) with
    | (none, st1) => runOps item st1 rest
    | (some e, st1) => (some e, st1)

/-- The signed sum of a trace: quantities added minus quantities removed. -/
def netSum : List SOp → Int
  | [] => 0
  | .addOp q :: rest => q + netSum rest
  | .removeOp q :: rest => netSum rest - q

/-- A trace, started at current quantity `c`, in which every operation is
valid (positive quantity) and every removal takes strictly less than the
quantity present at that point — so no operation deletes the item. -/
inductive SafeTrace : Int → List SOp → Prop where
  | nil (c : Int) : SafeTrace c []
  | add (c q : Int) (rest : List SOp) :
      0 < q → SafeTrace (c + q) rest → SafeTrace c (.addOp q :: rest)
  | remove (c q : Int) (rest : List SOp) :
      0 < q → q < c → SafeTrace (c - q) rest → SafeTrace c (.removeOp q :: rest)

/-- The error condition of `load_data` as the claim states it: the file
exists and either its contents are not valid JSON, or the JSON value is not
an object, or some value of the object is not an integer in Python's sense
(`isinstance(v, int)`; object keys are strings by construction, so the
non-string-key disjunct never fires). -/
def fileBad : FileState → Bool
  | .absent => false
  | .invalid => true
  | .parsed (.jobj fields) => ! fields.all (fun kv => jsonIsInt kv.2)
  | .parsed _ => true

/-- The mapping contained in a loadable file: its object entries normalized
into a dict in iteration order (empty for an absent file). -/
def fileContents : FileState → Store
  | .parsed (.jobj fields) =>
    fields.foldl (fun a kv => setKey a kv.1 (jsonInt kv.2)) []
  | _ => []

/-- The invalid-argument condition of the claim for `add_item` and
`remove_item`: the item is not a string or is the empty string, or the
quantity is not an integer in Python's sense (`isinstance(qty, int)`, which
booleans satisfy) or is not strictly positive. -/
def badInput (item qty : PyVal) : Prop :=
  (pyIsStr item = false ∨ item = .vstr "") ∨
  (pyIsInt qty = false ∨ pyInt qty ≤ 0)

/-! ### Basic lemmas about the dict operations -/

theorem lookupKey_mem {st : Store} {k : String} {v : Int}
    (h : lookupKey st k = some v) : (k, v) ∈ st := by
  induction st with
  | nil => simp [lookupKey] at h
  | cons kv rest ih =>
    obtain ⟨k', v'⟩ := kv
    simp only [lookupKey] at h
    split at h
    · next heq => cases h; simp [heq]
    · exact List.mem_cons_of_mem _ (ih h)

theorem mem_setKey {st : Store} {k : String} {v : Int} {kv : String × Int}
    (h : kv ∈ setKey st k v) : kv ∈ st ∨ kv = (k, v) := by
  induction st with
  | nil => simp [setKey] at h; simp [h]
  | cons kv' rest ih =>
    obtain ⟨k', v'⟩ := kv'
    simp only [setKey] at h
    split at h
    · rcases List.mem_cons.mp h with h | h
      · right; exact h
      · left; exact List.mem_cons_of_mem _ h
    · rcases List.mem_cons.mp h with h | h
      · left; simp [h]
      · rcases ih h with h | h
        · left; exact List.mem_cons_of_mem _ h
        · right; exact h

theorem mem_removeKey {st : Store} {k : String} {kv : String × Int}
    (h : kv ∈ removeKey st k) : kv ∈ st := by
  induction st with
  | nil => simp [removeKey] at h
  | cons kv' rest ih =>
    obtain ⟨k', v'⟩ := kv'
    simp only [removeKey] at h
    split at h
    · exact List.mem_cons_of_mem _ (ih h)
    · rcases List.mem_cons.mp h with h | h
      · simp [h]
      · exact List.mem_cons_of_mem _ (ih h)

theorem lookupKey_removeKey_self (st : Store) (k : String) :
    lookupKey (removeKey st k) k = none := by
  induction st with
  | nil => simp [removeKey, lookupKey]
  | cons kv rest ih =>
    obtain ⟨k', v'⟩ := kv
    simp only [removeKey]
    split
    · exact ih
    · next hne => simp only [lookupKey, if_neg hne]; exact ih

theorem setKey_of_lookup_none {st : Store} {k : String} (v : Int)
    (h : lookupKey st k = none) : setKey st k v = st ++ [(k, v)] := by
  induction st with
  | nil => simp [setKey]
  | cons kv rest ih =>
    obtain ⟨k', v'⟩ := kv
    simp only [lookupKey] at h
    split at h
    · cases h
    · next hne => simp only [setKey, if_neg hne, List.cons_append, ih h]

theorem lookupKey_append_of_none {a : Store} (b : Store) {k : String}
    (h : lookupKey a k = none) : lookupKey (a ++ b) k = lookupKey b k := by
  induction a with
  | nil => simp
  | cons kv rest ih =>
    obtain ⟨k', v'⟩ := kv
    simp only [lookupKey] at h
    split at h
    · cases h
    · next hne =>
      simp only [List.cons_append, lookupKey, if_neg hne]
      exact ih h

/-- Running the `load_data` loop over the serialization of a store with
distinct keys appends the store's entries, in order, to the accumulator. -/
theorem normalizeLoop_map_jint {st : Store} (acc : Store)
    (hnd : (st.map Prod.fst).Nodup)
    (hdisj : ∀ kv ∈ st, lookupKey acc kv.1 = none) :
    normalizeLoop acc (st.map (fun kv => (kv.1, Json.jint kv.2))) =
      .ok (acc ++ st) := by
  induction st generalizing acc with
  | nil => simp [normalizeLoop]
  | cons kv rest ih =>
    obtain ⟨k, v⟩ := kv
    simp only [List.map_cons, normalizeLoop, jsonIsInt, if_true, jsonInt]
    have hk : lookupKey acc k = none := hdisj (k, v) (List.mem_cons_self _ _)
    rw [setKey_of_lookup_none v hk]
    simp only [List.map_cons, List.nodup_cons] at hnd
    rw [ih (acc ++ [(k, v)]) hnd.2]
    · simp
    · intro kv' hkv'
      rw [lookupKey_append_of_none [(k, v)] (hdisj kv' (List.mem_cons_of_mem _ hkv'))]
      have hne : kv'.1 ≠ k := by
        intro hcontra
        exact hnd.1 (hcontra ▸ List.mem_map_of_mem Prod.fst hkv')
      simp [lookupKey, Ne.symm hne]

/-- Success characterization of `add_item`: on a `none` outcome the inputs
passed validation and the store got the incremented entry. -/
theorem add_item_ok {st st' : Store} {item qty : PyVal}
    (h : add_item st item qty = (none, st')) :
    pyIsStr item = true ∧ pyStr item ≠ "" ∧ pyIsInt qty = true ∧
      0 < pyInt qty ∧
      st' = setKey st (pyStr item) (getKey0 st (pyStr item) + pyInt qty) := by
  unfold add_item at h
  by_cases h1 : ¬ pyIsStr item = true ∨ pyStr item = ""
  · rw [if_pos h1] at h
    simp at h
  · rw [if_neg h1] at h
    push_neg at h1
    by_cases h2 : ¬ pyIsInt qty = true
    · simp [h2] at h
    · rw [if_neg h2] at h
      push_neg at h2
      by_cases h3 : pyInt qty ≤ 0
      · simp [h3] at h
      · rw [if_neg h3] at h
        exact ⟨h1.1, h1.2, h2, by omega, (congrArg Prod.snd h).symm⟩

/-- Success characterization of `remove_item`: on a `none` outcome the
inputs passed validation, the item was present, and the store either lost
the entry (removal of at least the current quantity) or had it
decremented. -/
theorem remove_item_ok {st st' : Store} {item qty : PyVal}
    (h : remove_item st item qty = (none, st')) :
    pyIsStr item = true ∧ pyStr item ≠ "" ∧ 0 < pyInt qty ∧
      ∃ cur, lookupKey st (pyStr item) = some cur ∧
        ((cur ≤ pyInt qty ∧ st' = removeKey st (pyStr item)) ∨
         (pyInt qty < cur ∧ st' = setKey st (pyStr item) (cur - pyInt qty))) := by
  unfold remove_item at h
  by_cases h1 : ¬ pyIsStr item = true ∨ pyStr item = ""
  · rw [if_pos h1] at h
    simp at h
  · rw [if_neg h1] at h
    push_neg at h1
    by_cases h2 : ¬ pyIsInt qty = true
    · simp [h2] at h
    · rw [if_neg h2] at h
      by_cases h3 : pyInt qty ≤ 0
      · simp [h3] at h
      · rw [if_neg h3] at h
        refine ⟨h1.1, h1.2, by omega, ?_⟩
        split at h
        · next hcur => simp at h
        · next cur hcur =>
          refine ⟨cur, hcur, ?_⟩
          split_ifs at h with h4
          · exact Or.inl ⟨by omega, (congrArg Prod.snd h).symm⟩
          · exact Or.inr ⟨by omega, (congrArg Prod.snd h).symm⟩

theorem storeInv_setKey {st : Store} (h : StoreInv st) {k : String} {v : Int}
    (hk : k ≠ "") (hv : 0 < v) : StoreInv (setKey st k v) :=
  fun kv hkv => (mem_setKey hkv).elim (h kv) (fun he => he ▸ ⟨hk, hv⟩)

theorem storeInv_removeKey {st : Store} (h : StoreInv st) (k : String) :
    StoreInv (removeKey st k) :=
  fun kv hkv => h kv (mem_removeKey hkv)

theorem getKey0_nonneg {st : Store} (h : StoreInv st) (k : String) :
    0 ≤ getKey0 st k := by
  unfold getKey0
  cases hl : lookupKey st k with
  | none => simp
  | some v => simpa using le_of_lt (h (k, v) (lookupKey_mem hl)).2

/-- `get_qty` passes the store through unchanged. -/
theorem get_qty_store (st : Store) (item : PyVal) :
    (get_qty st item).2.1 = st := by
  unfold get_qty
  split <;> rfl

/-- `check_low_items` passes the store through unchanged. -/
theorem check_low_items_store (st : Store) (threshold : PyVal) :
    (check_low_items st threshold).2.1 = st := by
  unfold check_low_items
  split <;> rfl

/-- The `load_data` loop keeps the invariant when fed entries with
non-empty keys and strictly positive integer values. -/
theorem normalizeLoop_inv :
    ∀ (fields : List (String × Json)) (acc out : Store),
      (∀ kv ∈ fields, kv.1 ≠ "" ∧ ∃ n : Int, kv.2 = Json.jint n ∧ 0 < n) →
      StoreInv acc → normalizeLoop acc fields = .ok out → StoreInv out := by
  intro fields
  induction fields with
  | nil =>
    intro acc out _ hacc h
    simp only [normalizeLoop, Except.ok.injEq] at h
    exact h ▸ hacc
  | cons kv rest ih =>
    intro acc out hgood hacc h
    obtain ⟨k, v⟩ := kv
    obtain ⟨hk, n, hv, hn⟩ := hgood (k, v) (List.mem_cons_self _ _)
    subst hv
    simp only [normalizeLoop, jsonIsInt, if_true, jsonInt] at h
    exact ih (setKey acc k n) out
      (fun kv' hkv' => hgood kv' (List.mem_cons_of_mem _ hkv'))
      (storeInv_setKey hacc hk hn) h

/-- The invariant holds in every state reachable with invariant-respecting
load files. -/
theorem reachableChecked_inv {st : Store} (h : ReachableChecked st) :
    StoreInv st := by
  induction h with
  | init => intro kv hkv; cases hkv
  | @step_add st1 st2 item qty hr hadd ih =>
    obtain ⟨_, hs, _, hq, hst⟩ := add_item_ok hadd
    subst hst
    exact storeInv_setKey ih hs
      (by have := getKey0_nonneg ih (pyStr item); omega)
  | @step_remove st1 st2 item qty hr hrem ih =>
    obtain ⟨_, hs, hq, cur, hcur, hcases⟩ := remove_item_ok hrem
    rcases hcases with ⟨hle, hst⟩ | ⟨hlt, hst⟩ <;> subst hst
    · exact storeInv_removeKey ih _
    · exact storeInv_setKey ih hs (by omega)
  | @step_query st1 st2 item e q hr he ih =>
    have hs := get_qty_store st1 item
    rw [he] at hs
    simp only [] at hs
    rw [show st2 = st1 from hs]
    exact ih
  | @step_low st1 st2 threshold e l hr he ih =>
    have hs := check_low_items_store st1 threshold
    rw [he] at hs
    simp only [] at hs
    rw [show st2 = st1 from hs]
    exact ih
  | @step_load st1 st2 f hr hgf hload ih =>
    cases f with
    | absent =>
      simp only [load_data] at hload
      have h2 : ([] : Store) = st2 := congrArg Prod.snd hload
      subst h2
      intro kv hkv
      cases hkv
    | invalid => simp only [load_data] at hload; simp at hload
    | parsed j =>
      cases j with
      | jobj fields =>
        simp only [load_data] at hload
        cases hn : normalizeLoop [] fields with
        | ok out =>
          rw [hn] at hload
          have h2 : out = st2 := congrArg Prod.snd hload
          subst h2
          exact normalizeLoop_inv fields [] out hgf
            (fun kv hkv => by cases hkv) hn
        | error e =>
          rw [hn] at hload
          simp at hload
      | jnull => simp only [load_data] at hload; simp at hload
      | jbool b => simp only [load_data] at hload; simp at hload
      | jint n => simp only [load_data] at hload; simp at hload
      | jfloat => simp only [load_data] at hload; simp at hload
      | jstr s => simp only [load_data] at hload; simp at hload
      | jarr xs => simp only [load_data] at hload; simp at hload

theorem lookupKey_setKey_self (st : Store) (k : String) (v : Int) :
    lookupKey (setKey st k v) k = some v := by
  induction st with
  | nil => simp [setKey, lookupKey]
  | cons kv rest ih =>
    obtain ⟨k', v'⟩ := kv
    simp only [setKey]
    split
    · simp [lookupKey]
    · next hne => simp only [lookupKey, if_neg hne]; exact ih

/-- The `load_data` loop succeeds exactly on all-integer values, in which
case it folds the entries into the accumulator. -/
theorem normalizeLoop_eq (acc : Store) (fields : List (String × Json)) :
    normalizeLoop acc fields =
      if fields.all (fun kv => jsonIsInt kv.2)
      then .ok (fields.foldl (fun a kv => setKey a kv.1 (jsonInt kv.2)) acc)
      else .error .valueError := by
  induction fields generalizing acc with
  | nil => simp [normalizeLoop]
  | cons kv rest ih =>
    obtain ⟨k, v⟩ := kv
    simp only [normalizeLoop, List.all_cons]
    by_cases hv : jsonIsInt v
    · rw [if_pos hv, ih]
      simp only [hv, Bool.true_and, List.foldl_cons]
    · simp [hv]

theorem safeTrace_net_nonneg :
    ∀ (ops : List SOp) (c : Int),
      SafeTrace c ops → 0 ≤ c → 0 ≤ c + netSum ops := by
  intro ops
  induction ops with
  | nil => intro c _ hc; simpa [netSum] using hc
  | cons op rest ih =>
    intro c hs hc
    cases hs with
    | add _ q _ hq hrest =>
      simp only [netSum]
      have := ih _ hrest (by omega)
      omega
    | remove _ q _ hq hqc hrest =>
      simp only [netSum]
      have := ih _ hrest (by omega)
      omega

/-- Under a trace in which every removal takes strictly less than the
current quantity, `runOps` never raises and the store tracks the running
signed sum of the trace. -/
theorem runOps_tracks_sum {item : String} (hitem : item ≠ "") :
    ∀ (ops : List SOp) (c : Int) (st : Store),
      SafeTrace c ops → 0 ≤ c →
      lookupKey st item = (if 0 < c then some c else none) →
      (runOps item st ops).1 = none ∧
      lookupKey ((runOps item st ops).2) item =
        (if 0 < c + netSum ops then some (c + netSum ops) else none) := by
  intro ops
  induction ops with
  | nil =>
    intro c st _ hc hlk
    constructor
    · rfl
    · simpa [runOps, netSum] using hlk
  | cons op rest ih =>
    intro c st hs hc hlk
    have hg : getKey0 st item = c := by
      unfold getKey0
      rw [hlk]
      split_ifs with h0
      · rfl
      · simp
        omega
    cases hs with
    | add _ q _ hq hrest =>
      have hadd : add_item st (.vstr item) (.vint q) =
          (none, setKey st item (c + q)) := by
        unfold add_item
        rw [if_neg (by simp [pyIsStr, pyStr, hitem]),
            if_neg (by simp [pyIsInt]),
            if_neg (by simp [pyInt]; omega)]
        simp only [pyStr, pyInt]
        rw [hg]
      simp only [runOps]
      rw [hadd]
      have hres := ih (c + q) (setKey st item (c + q)) hrest (by omega)
        (by rw [lookupKey_setKey_self, if_pos (by omega)])
      simp only [netSum]
      rw [← add_assoc]
      exact hres
    | remove _ q _ hq hqc hrest =>
      have hlkc : lookupKey st item = some c := by
        rw [hlk, if_pos (by omega)]
      have hrem : remove_item st (.vstr item) (.vint q) =
          (none, setKey st item (c - q)) := by
        unfold remove_item
        rw [if_neg (by simp [pyIsStr, pyStr, hitem]),
            if_neg (by simp [pyIsInt]),
            if_neg (by simp [pyInt]; omega)]
        simp only [pyStr, pyInt]
        rw [hlkc]
        simp [show ¬ q ≥ c from by omega]
      simp only [runOps]
      rw [hrem]
      have hres := ih (c - q) (setKey st item (c - q)) hrest (by omega)
        (by rw [lookupKey_setKey_self, if_pos (by omega)])
      simp only [netSum]
      have harith : c + (netSum rest - q) = c - q + netSum rest := by ring
      rw [harith]
      exact hres

/-! ### The claims -/

/-- C1 (counterexample): it is not true that every store state reachable
through the public operations has only non-empty keys and strictly positive
quantities: `load_data` accepts any `str -> int` object, so loading the file
`{"a": 0}` reaches a state holding the entry `("a", 0)`. -/
theorem store_invariant_claim_false :
    ¬ (∀ st : Store, Reachable st → StoreInv st) := by
  intro hclaim
  have hreach : Reachable [("a", 0)] :=
    Reachable.step_load (f := .parsed (.jobj [("a", Json.jint 0)]))
      Reachable.init (by decide)
  exact absurd (hclaim _ hreach ("a", 0) (by decide)).2 (by decide)

/-- C1 (amended): in every store state reachable through the public
operations in which each successful `load_data` read a file whose object
already had non-empty keys and strictly positive integer values, every key
of the inventory is a non-empty string and every stored quantity is
strictly positive; an entry never exists with quantity zero or below.
(`load_data` itself enforces neither non-emptiness of keys nor positivity
of values, which is what the counterexample exploits.) -/
theorem store_invariant_of_checked_loads {st : Store}
    (h : ReachableChecked st) : StoreInv st :=
  reachableChecked_inv h

theorem store_invariant_of_checked_loads_witness :
    StoreInv [("apple", 10)] :=
  store_invariant_of_checked_loads
    (@ReachableChecked.step_add [] [("apple", 10)] (.vstr "apple")
      (.vint 10) ReachableChecked.init (by decide))

/-- C2: for every store state (any dict: its keys are distinct), saving it
and then loading the saved file succeeds and reproduces the saved mapping,
whatever the store contained before the load. -/
theorem save_load_roundtrip (st st2 : Store)
    (h : (st.map Prod.fst).Nodup) :
    load_data st2 (save_data st) = (none, st) := by
  simp only [save_data, load_data]
  rw [normalizeLoop_map_jint [] h (fun kv _ => rfl)]
  simp

theorem save_load_roundtrip_witness :
    load_data [("x", 5)] (save_data [("apple", 7), ("banana", 2)]) =
      (none, [("apple", 7), ("banana", 2)]) :=
  save_load_roundtrip [("apple", 7), ("banana", 2)] [("x", 5)] (by decide)

/-- C3: `load_data` raises (the `ValueError` the spec calls FormatError)
exactly when the file exists and either its contents are not valid JSON,
the JSON value is not an object, or some value of the object is not an
integer (`fileBad`; keys of a decoded object are strings by construction).
On an absent file it succeeds with an empty store; on success the old store
is discarded and replaced wholesale by the file's contents. -/
theorem load_data_characterization (st : Store) (f : FileState) :
    (load_data st f).1 = (if fileBad f then some PyErr.valueError else none)
    ∧ (load_data st f).2 = (if fileBad f then st else fileContents f)
    ∧ load_data st .absent = (none, ([] : Store)) := by
  refine ⟨?_, ?_, rfl⟩ <;>
  · cases f with
    | absent => simp [load_data, fileBad, fileContents]
    | invalid => simp [load_data, fileBad, fileContents]
    | parsed j =>
      cases j with
      | jobj fields =>
        cases hall : fields.all (fun kv => jsonIsInt kv.2) <;>
          simp [load_data, fileBad, fileContents, normalizeLoop_eq, hall]
      | jnull => simp [load_data, fileBad, fileContents]
      | jbool b => simp [load_data, fileBad, fileContents]
      | jint n => simp [load_data, fileBad, fileContents]
      | jfloat => simp [load_data, fileBad, fileContents]
      | jstr s2 => simp [load_data, fileBad, fileContents]
      | jarr xs => simp [load_data, fileBad, fileContents]

/-- C4: for an item present with quantity `c` and a valid positive `qty`:
if `qty >= c` the entry is deleted entirely (not set to zero or negative)
and `get_qty` afterwards returns 0; if `qty < c` the quantity is
decremented in place to `c - qty`. -/
theorem remove_deletes_or_decrements (st : Store) (s : String) (q c : Int)
    (hs : s ≠ "") (hq : 0 < q) (hc : lookupKey st s = some c) :
    (c ≤ q →
      remove_item st (.vstr s) (.vint q) = (none, removeKey st s)
      ∧ lookupKey (removeKey st s) s = none
      ∧ get_qty (removeKey st s) (.vstr s) = (none, removeKey st s, some 0))
    ∧ (q < c →
      remove_item st (.vstr s) (.vint q) = (none, setKey st s (c - q))) := by
  have hguard : remove_item st (.vstr s) (.vint q) =
      if q ≥ c then (none, removeKey st s) else (none, setKey st s (c - q)) := by
    unfold remove_item
    rw [if_neg (by simp [pyIsStr, pyStr, hs]),
        if_neg (by simp [pyIsInt]),
        if_neg (by simp [pyInt]; omega)]
    simp only [pyStr, pyInt]
    rw [hc]
  constructor
  · intro hcq
    rw [hguard, if_pos (by omega)]
    refine ⟨rfl, lookupKey_removeKey_self st s, ?_⟩
    unfold get_qty
    rw [if_neg (by simp [pyIsStr, pyStr, hs])]
    simp only [pyStr]
    unfold getKey0
    rw [lookupKey_removeKey_self]
    rfl
  · intro hqc
    rw [hguard, if_neg (by omega)]

theorem remove_deletes_or_decrements_witness :
    (remove_item [("apple", 10)] (.vstr "apple") (.vint 12) =
        (none, removeKey [("apple", 10)] "apple")
      ∧ lookupKey (removeKey [("apple", 10)] "apple") "apple" = none
      ∧ get_qty (removeKey [("apple", 10)] "apple") (.vstr "apple") =
          (none, removeKey [("apple", 10)] "apple", some 0))
    ∧ remove_item [("apple", 10)] (.vstr "apple") (.vint 3) =
        (none, setKey [("apple", 10)] "apple" (10 - 3)) :=
  ⟨(remove_deletes_or_decrements [("apple", 10)] "apple" 12 10
      (by decide) (by decide) (by decide)).1 (by decide),
   (remove_deletes_or_decrements [("apple", 10)] "apple" 3 10
      (by decide) (by decide) (by decide)).2 (by decide)⟩

/-- C6: removing an item that is absent from the store, with valid
arguments, raises `KeyError` (the spec's NotFound) and leaves the store
as it was. -/
theorem remove_absent_raises_notFound (st : Store) (s : String) (q : Int)
    (hs : s ≠ "") (hq : 0 < q) (habs : lookupKey st s = none) :
    remove_item st (.vstr s) (.vint q) = (some PyErr.keyError, st) := by
  unfold remove_item
  rw [if_neg (by simp [pyIsStr, pyStr, hs]),
      if_neg (by simp [pyIsInt]),
      if_neg (by simp [pyInt]; omega)]
  simp only [pyStr, pyInt]
  rw [habs]

theorem remove_absent_raises_notFound_witness :
    remove_item [("banana", 2)] (.vstr "apple") (.vint 1) =
      (some PyErr.keyError, [("banana", 2)]) :=
  remove_absent_raises_notFound [("banana", 2)] "apple" 1
    (by decide) (by decide) (by decide)

/-- C5 (counterexample): the quantity after a sequence of valid adds and
successful removes is not in general the signed sum of the trace: starting
empty, `add("a",5); remove("a",7); add("a",3)` all succeed and leave
quantity 3, while the signed sum is `5 - 7 + 3 = 1`.  (The remove of 7
deleted the entry holding 5, discarding only 5.) -/
theorem cumulative_sum_claim_false :
    ¬ (∀ (ops : List SOp) (st1 : Store) (q : Int),
        runOps "a" [] ops = (none, st1) → lookupKey st1 "a" = some q →
        q = netSum ops) := by
  intro hclaim
  have h := hclaim [SOp.addOp 5, SOp.removeOp 7, SOp.addOp 3] [("a", 3)] 3
    (by decide) (by decide)
  exact absurd h (by decide)

/-- C5 (amended): for every non-empty item and every sequence of valid
`add_item`/`remove_item` calls on it in which each removal takes strictly
less than the quantity present at that point (so no call deletes the
entry), every call succeeds and `get_qty`'s value equals the sum of all
quantities added minus the sum removed; and a single `add_item` of `qty`
onto previous quantity `p` stores `p + qty`, creating the entry at `qty`
when absent.  Without the no-deletion restriction the signed-sum equality
fails, because a removal of at least the current quantity discards exactly
that quantity, not the amount requested. -/
theorem cumulative_sum_without_deletes (item : String) (ops : List SOp)
    (st : Store) (q : Int) (hitem : item ≠ "") (hsafe : SafeTrace 0 ops)
    (hq : 0 < q) :
    (runOps item [] ops).1 = none
    ∧ getKey0 ((runOps item [] ops).2) item = netSum ops
    ∧ add_item st (.vstr item) (.vint q) =
        (none, setKey st item (getKey0 st item + q)) := by
  have hmain := runOps_tracks_sum hitem ops 0 [] hsafe le_rfl
    (by simp [lookupKey])
  refine ⟨hmain.1, ?_, ?_⟩
  · unfold getKey0
    rw [hmain.2]
    simp only [zero_add]
    split_ifs with h0
    · rfl
    · have hnn := safeTrace_net_nonneg ops 0 hsafe le_rfl
      simp only [Option.getD_none]
      omega
  · unfold add_item
    rw [if_neg (by simp [pyIsStr, pyStr, hitem]),
        if_neg (by simp [pyIsInt]),
        if_neg (by simp [pyInt]; omega)]
    rfl

theorem cumulative_sum_without_deletes_witness :
    (runOps "apple" [] [SOp.addOp 5, SOp.removeOp 3]).1 = none
    ∧ getKey0 ((runOps "apple" [] [SOp.addOp 5, SOp.removeOp 3]).2) "apple" =
        netSum [SOp.addOp 5, SOp.removeOp 3]
    ∧ add_item [] (.vstr "apple") (.vint 4) =
        (none, setKey [] "apple" (getKey0 [] "apple" + 4)) :=
  cumulative_sum_without_deletes "apple" [SOp.addOp 5, SOp.removeOp 3] [] 4
    (by decide)
    (SafeTrace.add 0 5 [SOp.removeOp 3] (by decide)
      (SafeTrace.remove 5 3 [] (by decide) (by decide) (SafeTrace.nil 2)))
    (by decide)

/-- C7: for every input in which the item is not a string or is empty, or
the (Python-sense) quantity is not an integer or not strictly positive,
both `add_item` and `remove_item` raise a validation error (`TypeError` or
`ValueError`, the spec's InvalidArgument) and leave the store untouched. -/
theorem invalid_arguments_rejected (st : Store) (item qty : PyVal)
    (h : badInput item qty) :
    (∃ e, (e = PyErr.typeError ∨ e = PyErr.valueError) ∧
        add_item st item qty = (some e, st))
    ∧ (∃ e, (e = PyErr.typeError ∨ e = PyErr.valueError) ∧
        remove_item st item qty = (some e, st)) := by
  by_cases h1 : ¬ pyIsStr item = true ∨ pyStr item = ""
  · exact ⟨⟨.typeError, Or.inl rfl, by unfold add_item; rw [if_pos h1]⟩,
      ⟨.typeError, Or.inl rfl, by unfold remove_item; rw [if_pos h1]⟩⟩
  · push_neg at h1
    have hqty : pyIsInt qty = false ∨ pyInt qty ≤ 0 := by
      rcases h with (hbad | hbad) | hbad
      · exact absurd h1.1 (by simp [hbad])
      · exact absurd (by simp [hbad, pyStr]) h1.2
      · exact hbad
    by_cases h2 : ¬ pyIsInt qty = true
    · refine ⟨⟨.typeError, Or.inl rfl, ?_⟩, ⟨.typeError, Or.inl rfl, ?_⟩⟩
      · unfold add_item
        rw [if_neg (by push_neg; exact h1), if_pos h2]
      · unfold remove_item
        rw [if_neg (by push_neg; exact h1), if_pos h2]
    · have h3 : pyInt qty ≤ 0 := by
        rcases hqty with hbad | hbad
        · exact absurd (by simpa using h2) (by simp [hbad])
        · exact hbad
      refine ⟨⟨.valueError, Or.inr rfl, ?_⟩, ⟨.valueError, Or.inr rfl, ?_⟩⟩
      · unfold add_item
        rw [if_neg (by push_neg; exact h1), if_neg h2, if_pos h3]
      · unfold remove_item
        rw [if_neg (by push_neg; exact h1), if_neg h2, if_pos h3]

theorem invalid_arguments_rejected_witness :
    (∃ e, (e = PyErr.typeError ∨ e = PyErr.valueError) ∧
        add_item [("apple", 1)] (.vstr "apple") (.vint 0) =
          (some e, [("apple", 1)]))
    ∧ (∃ e, (e = PyErr.typeError ∨ e = PyErr.valueError) ∧
        remove_item [("apple", 1)] (.vstr "apple") (.vint 0) =
          (some e, [("apple", 1)])) :=
  invalid_arguments_rejected [("apple", 1)] (.vstr "apple") (.vint 0)
    (Or.inr (Or.inr (by decide)))

/-- C8: for every integer threshold and every store state,
`check_low_items` succeeds without touching the store, and a key is in the
returned list exactly when it has a stored quantity strictly below the
threshold (so an item at exactly the threshold is excluded). -/
theorem low_stock_characterization (st : Store) (th : Int) (k : String) :
    (check_low_items st (.vint th)).1 = none
    ∧ (check_low_items st (.vint th)).2.1 = st
    ∧ (k ∈ ((check_low_items st (.vint th)).2.2.getD [])
        ↔ ∃ v : Int, (k, v) ∈ st ∧ v < th) := by
  refine ⟨rfl, rfl, ?_⟩
  simp only [check_low_items, pyIsInt, pyInt]
  rw [if_neg (by simp)]
  simp only [Option.getD_some, List.mem_map, List.mem_filter,
    decide_eq_true_eq]
  constructor
  · rintro ⟨⟨k', v⟩, ⟨hmem, hlt⟩, hk⟩
    obtain rfl : k' = k := hk
    exact ⟨v, hmem, hlt⟩
  · rintro ⟨v, hmem, hlt⟩
    exact ⟨(k, v), ⟨hmem, hlt⟩, rfl⟩

/-- C9: for a non-empty string item, `get_qty` succeeds, returns the
stored quantity (0 when the item is absent) and does not change the store;
for an arbitrary argument it still never changes the store, and it raises
only when the argument is malformed (not a string, or empty). -/
theorem get_qty_total_on_valid (st : Store) (s : String) (item : PyVal)
    (h : s ≠ "") :
    get_qty st (.vstr s) = (none, st, some (getKey0 st s))
    ∧ (lookupKey st s = none → getKey0 st s = 0)
    ∧ (get_qty st item).2.1 = st
    ∧ ((get_qty st item).1 ≠ none →
        pyIsStr item = false ∨ pyStr item = "") := by
  refine ⟨?_, ?_, get_qty_store st item, ?_⟩
  · unfold get_qty
    rw [if_neg (by simp [pyIsStr, pyStr, h])]
    rfl
  · intro habs
    unfold getKey0
    rw [habs]
    rfl
  · intro herr
    unfold get_qty at herr
    by_cases hb : ¬ pyIsStr item = true ∨ pyStr item = ""
    · rcases hb with hb | hb
      · exact Or.inl (by simpa using hb)
      · exact Or.inr hb
    · rw [if_neg hb] at herr
      simp at herr

theorem get_qty_total_on_valid_witness :
    get_qty [] (.vstr "apple") = (none, [], some (getKey0 [] "apple"))
    ∧ getKey0 ([] : Store) "apple" = 0 :=
  ⟨(get_qty_total_on_valid [] "apple" (.vint 3) (by decide)).1,
   (get_qty_total_on_valid [] "apple" (.vint 3) (by decide)).2.1 (by decide)⟩

/-- C10: whenever `add_item`, `remove_item` or `load_data` raises, the
store is exactly what it was before the call — validation and parsing
finish before any mutation — and the nonexistent-file case of `load_data`
does not raise (it empties the store). -/
theorem failed_ops_preserve_store (st : Store) (item qty : PyVal)
    (f : FileState) :
    ((add_item st item qty).1 ≠ none → (add_item st item qty).2 = st)
    ∧ ((remove_item st item qty).1 ≠ none → (remove_item st item qty).2 = st)
    ∧ ((load_data st f).1 ≠ none → (load_data st f).2 = st)
    ∧ load_data st .absent = (none, ([] : Store)) := by
  refine ⟨?_, ?_, ?_, rfl⟩
  · intro herr
    unfold add_item at herr ⊢
    by_cases h1 : ¬ pyIsStr item = true ∨ pyStr item = ""
    · rw [if_pos h1]
    · rw [if_neg h1] at herr ⊢
      by_cases h2 : ¬ pyIsInt qty = true
      · rw [if_pos h2]
      · rw [if_neg h2] at herr ⊢
        by_cases h3 : pyInt qty ≤ 0
        · rw [if_pos h3]
        · rw [if_neg h3] at herr
          exact absurd rfl herr
  · intro herr
    unfold remove_item at herr ⊢
    by_cases h1 : ¬ pyIsStr item = true ∨ pyStr item = ""
    · rw [if_pos h1]
    · rw [if_neg h1] at herr ⊢
      by_cases h2 : ¬ pyIsInt qty = true
      · rw [if_pos h2]
      · rw [if_neg h2] at herr ⊢
        by_cases h3 : pyInt qty ≤ 0
        · rw [if_pos h3]
        · rw [if_neg h3] at herr ⊢
          cases hcur : lookupKey st (pyStr item) with
          | none => simp [hcur]
          | some cur =>
            rw [hcur] at herr
            exfalso
            apply herr
            simp only []
            split_ifs <;> rfl
  · intro herr
    cases f with
    | absent => simp [load_data] at herr
    | invalid => rfl
    | parsed j =>
      cases j with
      | jobj fields =>
        simp only [load_data] at herr ⊢
        cases hn : normalizeLoop [] fields with
        | ok out => rw [hn] at herr; simp at herr
        | error e => rfl
      | jnull => rfl
      | jbool b => rfl
      | jint n => rfl
      | jfloat => rfl
      | jstr s2 => rfl
      | jarr xs => rfl

theorem failed_ops_preserve_store_witness :
    (add_item [("apple", 1)] (.vstr "") (.vint 5)).2 = [("apple", 1)]
    ∧ (remove_item [("apple", 1)] (.vstr "pear") (.vint 5)).2 = [("apple", 1)]
    ∧ (load_data [("apple", 1)] .invalid).2 = [("apple", 1)] :=
  ⟨(failed_ops_preserve_store [("apple", 1)] (.vstr "") (.vint 5)
      .invalid).1 (by decide),
   (failed_ops_preserve_store [("apple", 1)] (.vstr "pear") (.vint 5)
      .invalid).2.1 (by decide),
   (failed_ops_preserve_store [("apple", 1)] (.vstr "pear") (.vint 5)
      .invalid).2.2.1 (by decide)⟩
